import Mathlib

/-!
Verification of `pdb_to_psf.py`: a shallow embedding of the data model and
operations of the script, followed by theorems settling the specification
claims about it.

Conventions of the embedding:
* A text file is a `List String` of its lines (without trailing newlines);
  end-of-file is the end of the list.
* Python `str.strip`, `str.split()`, slicing `s[a:b]`, indexing `s[i]`,
  `int(...)` and `float(...)` are modelled by the `py*`/`pySlice`/`charAt?`
  functions below.  Float values are represented exactly: every float this
  program creates or compares comes from a finite decimal literal, so a
  float is an exact fraction `PyFloat` (numerator over positive
  denominator), compared by cross-multiplication (`PyFloat.eqv`), which on
  such values agrees with IEEE `==`.
* Python dicts are association lists with insert-or-overwrite (`setAssoc`),
  preserving insertion order like Python dicts; a `KeyError` is a `none`
  from `getAssoc`.
* Fatal conditions (`sys.exit`, uncaught exceptions) are explicit error
  values.  Drivers that mutate state before failing return the state as it
  was when the failure occurred, paired with an optional error.
-/

instance {ε α : Type} [DecidableEq ε] [DecidableEq α] : DecidableEq (Except ε α) := fun x y =>
  match x, y with
  | .ok a, .ok b =>
    if h : a = b then isTrue (by rw [h]) else isFalse (fun hh => by cases hh; exact h rfl)
  | .error e, .error f =>
    if h : e = f then isTrue (by rw [h]) else isFalse (fun hh => by cases hh; exact h rfl)
  | .ok _, .error _ => isFalse (fun h => by cases h)
  | .error _, .ok _ => isFalse (fun h => by cases h)

/-! ## Python string primitives -/

/-- Python `s[a:b]` (0-based, end-exclusive, clamped at the ends). -/
def pySlice (s : String) (a b : Nat) : String := ⟨(s.data.drop a).take (b - a)⟩

/-- Python `s[i]`: the character at index `i`, `none` when out of range
(an `IndexError` in Python). -/
def charAt? (s : String) (i : Nat) : Option Char := s.data.get? i

/-- Python `s.strip()`: remove leading and trailing whitespace. -/
def pyStrip (s : String) : String :=
  ⟨((s.data.dropWhile Char.isWhitespace).reverse.dropWhile Char.isWhitespace).reverse⟩

/-- Python `s.startswith(p)`. -/
def pyStartsWith (s p : String) : Bool := p.data.isPrefixOf s.data

/-- Python `s.endswith(p)`. -/
def pyEndsWith (s p : String) : Bool := p.data.isSuffixOf s.data

/-- Worker for `splitWs`: `acc` holds the current word reversed. -/
def wordsAux : List Char → List Char → List String
  | [], acc => if acc.isEmpty then [] else [⟨acc.reverse⟩]
  | c :: cs, acc =>
    if c.isWhitespace then
      if acc.isEmpty then wordsAux cs [] else ⟨acc.reverse⟩ :: wordsAux cs []
    else wordsAux cs (c :: acc)

/-- Python `s.split()`: split on whitespace runs, no empty tokens. -/
def splitWs (s : String) : List String := wordsAux s.data []

/-- The comment regexp substitution of the CHARMM reader: drop everything
from the first `!` on (a regexp dot never matches a newline, and our lines
carry none). -/
def nukeComment (s : String) : String := ⟨s.data.takeWhile (fun c => c != '!')⟩

/-! ## Python numbers -/

/-- Value of a digit string (assumed all digits). -/
def digitsVal (cs : List Char) : Nat := cs.foldl (fun n c => 10 * n + (c.toNat - 48)) 0

/-- All characters are decimal digits. -/
def allDigits (cs : List Char) : Bool := cs.all (fun c => c.isDigit)

/-- `int(...)` on a stripped character list. -/
def pyIntCore : List Char → Option Int
  | [] => none
  | '-' :: cs => if allDigits cs && !cs.isEmpty then some (-(digitsVal cs : Int)) else none
  | '+' :: cs => if allDigits cs && !cs.isEmpty then some ((digitsVal cs : Int)) else none
  | cs => if allDigits cs then some ((digitsVal cs : Int)) else none

/-- Python `int(s)`: strip, optional sign, decimal digits; `none` models a
`ValueError`. -/
def pyInt? (s : String) : Option Int := pyIntCore (pyStrip s).data

/-- An exact Python float value: `num / den` with `den` a positive power of
ten by construction.  Finite decimals (the only floats this program ever
creates) are represented exactly. -/
structure PyFloat where
  num : Int
  den : Nat
  deriving DecidableEq, Repr

/-- Value equality of two exact floats (Python `==` on these values). -/
def PyFloat.eqv (a b : PyFloat) : Bool := a.num * (b.den : Int) == b.num * (a.den : Int)

/-- The float denoted by the decimal literal `intPart.fracPart`. -/
def decimalFloat (intPart : Nat) (fracPart : List Char) : PyFloat :=
  ⟨(intPart * 10 ^ fracPart.length + digitsVal fracPart : Nat), 10 ^ fracPart.length⟩

/-- `float(...)` mantissa: `digits`, `digits.digits`, `.digits` or `digits.`. -/
def pyFloatCore (cs : List Char) : Option PyFloat :=
  match cs.span (fun c => c != '.') with
  | (ip, []) => if allDigits ip && !ip.isEmpty then some ⟨(digitsVal ip : Nat), 1⟩ else none
  | (ip, '.' :: fp) =>
    if allDigits ip && allDigits fp && !(ip.isEmpty && fp.isEmpty) then
      some (decimalFloat (digitsVal ip) fp)
    else none
  | _ => none

/-- Python `float(s)` on the decimal literals this program encounters:
strip, optional sign, decimal mantissa; `none` models a `ValueError`. -/
def pyFloat? (s : String) : Option PyFloat :=
  match (pyStrip s).data with
  | [] => none
  | '-' :: cs => (pyFloatCore cs).map (fun q => ⟨-q.num, q.den⟩)
  | '+' :: cs => pyFloatCore cs
  | cs => pyFloatCore cs

/-! ## Python dicts as ordered association lists -/

/-- `d[k] = v`: overwrite the existing binding or append a new one. -/
def setAssoc {α : Type} (m : List (String × α)) (k : String) (v : α) : List (String × α) :=
  match m with
  | [] => [(k, v)]
  | (k', v') :: rest => if k' = k then (k', v) :: rest else (k', v') :: setAssoc rest k v

/-- `d[k]` as a lookup; `none` models a `KeyError`. -/
def getAssoc {α : Type} (m : List (String × α)) (k : String) : Option α :=
  match m with
  | [] => none
  | (k', v') :: rest => if k' = k then some v' else getAssoc rest k

/-! ## `AtomRecord.__init__`: the fixed-column PDB parser -/

structure AtomRecord where
  atomid : Int
  atomname : String
  resname : String
  chain : Char
  resid : Int
  x : PyFloat
  y : PyFloat
  z : PyFloat
  occupancy : PyFloat
  tempfactor : PyFloat
  ff_type : String
  deriving DecidableEq, Repr

/-- `AtomRecord.__init__(line)`: extract the fixed columns.  `none` models a
fatal parse error (any failing conversion other than the tolerated
`residue_id` fallback to 0). -/
def AtomRecord.ofLine? (line : String) : Option AtomRecord :=
  match pyInt? (pySlice line 6 11), charAt? line 21, pyFloat? (pySlice line 30 38),
        pyFloat? (pySlice line 38 46), pyFloat? (pySlice line 46 54),
        pyFloat? (pySlice line 54 60), pyFloat? (pySlice line 60 66) with
  | some atomid, some chain0, some x, some y, some z, some occupancy, some tempfactor =>
    some { atomid,
           atomname := pyStrip (pySlice line 12 16),
           resname := pyStrip (pySlice line 17 20),
           chain := if chain0 = ' ' then 'X' else chain0,
           resid := (pyInt? (pySlice line 22 26)).getD 0,
           x, y, z, occupancy, tempfactor, ff_type := "" }
  | _, _, _, _, _, _, _ => none

/-! ## `Molecule` filters -/

def solvent_residues : List String := ["WAT", "T3P", "HOH", "PW", "W"]

/-- `Molecule.nuke_solvent`: drop atoms whose residue name is solvent. -/
def nuke_solvent (atoms : List AtomRecord) : List AtomRecord :=
  atoms.filter (fun atom => !(solvent_residues.contains atom.resname))

/-- `Molecule.keep_only_atomname`. -/
def keep_only_atomname (atoms : List AtomRecord) (atomname : String) : List AtomRecord :=
  atoms.filter (fun atom => atom.atomname == atomname)

/-! ## `Molecule.print_as_psf`: the PSF emitter

Only the per-atom record emission is modelled: the surrounding header and
trailer lines are constant text.  Each emitted atom line is captured as the
tuple of field values substituted into the `"%8d %-4s %4d %-4s %-4s %-4s
%12.6f %10.4f 0"` format string. -/

structure PsfAtomLine where
  atomid : Int
  chain : Char
  resid : Int
  resname : String
  atomname : String
  ff_type : String
  charge : PyFloat
  mass : PyFloat
  trailing : Nat
  deriving DecidableEq, Repr

inductive PsfErr
  /-- `self.charges` was never created (no ITP resolver ran). -/
  | attributeError
  /-- `self.charges[k]` has no key `k`. -/
  | keyError (k : String)
  deriving DecidableEq, Repr

/-- The charge table argument: `none` when `add_atom_types_from_itp` never
ran (the `self.charges` attribute does not exist). -/
def lookupCharge (charges : Option (List (String × PyFloat))) (k : String) : Option PyFloat :=
  match charges with
  | none => none
  | some t => getAssoc t k

/-- The per-atom loop of `Molecule.print_as_psf`. -/
def print_as_psf (atoms : List AtomRecord) (charges : Option (List (String × PyFloat))) :
    Except PsfErr (List PsfAtomLine) :=
  match atoms with
  | [] => .ok []
  | atom :: rest =>
    match charges with
    | none => .error .attributeError
    | some t =>
      match getAssoc t atom.ff_type with
      | none => .error (.keyError atom.ff_type)
      | some q =>
        match print_as_psf rest charges with
        | .error e => .error e
        | .ok ls =>
          .ok (⟨atom.atomid, atom.chain, atom.resid, atom.resname, atom.atomname,
                atom.ff_type, q, ⟨1, 1⟩, 0⟩ :: ls)

/-! ## `Molecule.add_charmm_topology`: the CHARMM topology resolver -/

inductive CharmmErr
  /-- dict subscript on a missing key. -/
  | keyError (k : String)
  /-- tuple-unpack arity mismatch or failing `float(...)`. -/
  | valueError
  /-- `l.split()[1]` or `bonds[i+1]` out of range. -/
  | indexError
  deriving DecidableEq, Repr

structure CharmmState where
  current_residue : String
  charge_by_type : List (String × List (String × PyFloat))
  bond_list : List (String × List (String × Bool))
  deriving DecidableEq, Repr

def initCharmm : CharmmState := ⟨"", [], []⟩

/-- The `BOND` card loop: pairs registered in both orders; an odd trailing
token is `bonds[i+1]`, an `IndexError`.  Each iteration re-reads
`bond_list[current_residue]` (a `KeyError` when no `RESI` opened it). -/
def addBondPairs (s : CharmmState) : List String → Except CharmmErr CharmmState
  | [] => .ok s
  | [_] => .error .indexError
  | b1 :: b2 :: rest =>
    match getAssoc s.bond_list s.current_residue with
    | none => .error (.keyError s.current_residue)
    | some tbl =>
      let tbl := setAssoc (setAssoc tbl (b1 ++ "-" ++ b2) true) (b2 ++ "-" ++ b1) true
      addBondPairs { s with bond_list := setAssoc s.bond_list s.current_residue tbl } rest

/-- Dispatch of one comment-stripped, stripped, nonempty line on the
`RESI`/`ATOM`/`BOND` card prefixes (any other card is ignored). -/
def charmmCard (s : CharmmState) (l : String) : Except CharmmErr CharmmState :=
  if pySlice l 0 4 = "RESI" then
    match splitWs l with
    | _ :: name :: _ =>
      .ok { current_residue := name,
            charge_by_type := setAssoc s.charge_by_type name [("NH3", ⟨-30, 100⟩)],
            bond_list := setAssoc s.bond_list name [] }
    | _ => .error .indexError
  else if pySlice l 0 4 = "ATOM" then
    match splitWs l with
    | [_, _, atomtype, charge] =>
      match pyFloat? charge with
      | none => .error .valueError
      | some q =>
        match getAssoc s.charge_by_type s.current_residue with
        | none => .error (.keyError s.current_residue)
        | some tbl =>
          .ok { s with charge_by_type :=
                  setAssoc s.charge_by_type s.current_residue (setAssoc tbl atomtype q) }
    | _ => .error .valueError
  else if pySlice l 0 4 = "BOND" then
    addBondPairs s ((splitWs l).drop 1)
  else .ok s

/-- The read loop of `Molecule.add_charmm_topology`: the continuation check
(`l.strip().endswith('-')`) runs on the raw line and discards the next
physical line; then the comment is stripped; empty results are skipped.
Returns the state as of the failure when a card fails. -/
def add_charmm_topology (s : CharmmState) : List String → CharmmState × Option CharmmErr
  | [] => (s, none)
  | l :: rest =>
    if pyEndsWith (pyStrip l) "-" then
      match rest with
      | [] => (s, none)
      | _ :: rest' => add_charmm_topology s rest'
    else
      let l' := pyStrip (nukeComment l)
      if l' = "" then add_charmm_topology s rest
      else
        match charmmCard s l' with
        | .error e => (s, some e)
        | .ok s' => add_charmm_topology s' rest

/-! ## `Molecule.add_atom_types_from_itp`: the ITP resolver -/

structure ItpFlags where
  in_atom_block : Bool
  in_atomtypes_block : Bool
  in_ifdef_block : Bool
  deriving DecidableEq, Repr

def initFlags : ItpFlags := ⟨false, false, false⟩

structure ItpState where
  atoms : List AtomRecord
  atom_i : Nat
  charges : List (String × PyFloat)
  deriving DecidableEq, Repr

inductive ItpErr
  /-- `sys.exit(1)` after "BUG: Should have loaded atoms first". -/
  | notLoaded
  /-- `sys.exit(1)` after the "WHOA! ITP mismatch" diagnostic. -/
  | mismatch (pdbResid itpResid : Int)
  /-- `self.atoms[atom_i]` with the cursor past the end of the list. -/
  | indexError
  /-- unpack/`int(...)` failure on an `[ atoms ]` entry line. -/
  | atomsValueError
  /-- unpack/`float(...)` failure on an `[ atomtypes ]` entry line. -/
  | typesValueError
  deriving DecidableEq, Repr

/-- The exit code `sys.exit` is called with, for the two explicit aborts;
`none` for conditions that propagate as uncaught exceptions. -/
def ItpErr.explicitExit : ItpErr → Option Nat
  | .notLoaded => some 1
  | .mismatch _ _ => some 1
  | _ => none

/-- The diagnostic printed to stderr before each explicit abort. -/
def ItpErr.diagnostic : ItpErr → String
  | .notLoaded => "BUG: Should have loaded atoms first"
  | .mismatch p q =>
    "WHOA! ITP mismatch: resid " ++ toString p ++ " in PDB vs " ++ toString q ++ " in ITP"
  | _ => ""

/-- What the line-dispatch `elif` chain does with one raw line: which
payload processing it receives (if any), and the block flags after it.
This is the exact chain of `add_atom_types_from_itp`: the section-header,
`#if`/`#endif` and comment/blank checks come first (so they fire even while
the ifdef-skip flag is set), then the flag silences payload lines. -/
inductive ItpLineKind
  | skip
  | atomEntry
  | typesEntry
  deriving DecidableEq, Repr

def itpClassify (fl : ItpFlags) (raw : String) : ItpLineKind × ItpFlags :=
  let line := pyStrip raw
  if pyStartsWith line "[ atoms ]" then
    (.skip, { fl with in_atom_block := true, in_atomtypes_block := false })
  else if pyStartsWith line "[ atomtypes ]" then
    (.skip, { fl with in_atomtypes_block := true, in_atom_block := false })
  else if pyStartsWith line "[ " then
    (.skip, { fl with in_atom_block := false, in_atomtypes_block := false })
  else if pyStartsWith line "#if" then (.skip, { fl with in_ifdef_block := true })
  else if pyStartsWith line "#endif" then (.skip, { fl with in_ifdef_block := false })
  else if pyStartsWith line ";" || line = "" then (.skip, fl)
  else if fl.in_ifdef_block then (.skip, fl)
  else if fl.in_atom_block then (.atomEntry, fl)
  else if fl.in_atomtypes_block then (.typesEntry, fl)
  else (.skip, fl)

/-- `(atomid, ff_type, resid, resname, atomname) = toks[0:5]` followed by
`int(atomid), int(resid)`; `none` models the fatal unpack/conversion
failure.  Only the first, second and third tokens are consumed. -/
def parseAtomEntry (line : String) : Option (Int × String × Int) :=
  match splitWs line with
  | a0 :: a1 :: a2 :: _ :: _ :: _ =>
    match pyInt? a0, pyInt? a2 with
    | some atomid, some resid => some (atomid, a1, resid)
    | _, _ => none
  | _ => none

/-- The `[ atomtypes ]` tokenisation: try the 7-token form (charge is token
3), fall back to the 6-token form (charge is token 2); then `float(...)`. -/
def parseTypesEntry (line : String) : Option (String × PyFloat) :=
  match splitWs line with
  | t0 :: _ :: _ :: t3 :: _ :: _ :: _ :: _ => (pyFloat? t3).map (fun q => (t0, q))
  | [t0, _, t2, _, _, _] => (pyFloat? t2).map (fun q => (t0, q))
  | _ => none

/-- Processing of a line classified into the `[ atoms ]` branch: fetch
`self.atoms[atom_i]`, compare resids, on agreement assign the force-field
type in place and advance the cursor. -/
def atomEntryStep (st : ItpState) (line : String) : Except ItpErr ItpState :=
  match parseAtomEntry line with
  | none => .error .atomsValueError
  | some (_, ff, resid) =>
    match st.atoms.get? st.atom_i with
    | none => .error .indexError
    | some a =>
      if a.resid = resid then
        .ok { st with atoms := st.atoms.set st.atom_i { a with ff_type := ff },
                      atom_i := st.atom_i + 1 }
      else .error (.mismatch a.resid resid)

/-- Processing of a line classified into the `[ atomtypes ]` branch. -/
def typesEntryStep (st : ItpState) (line : String) : Except ItpErr ItpState :=
  match parseTypesEntry line with
  | none => .error .typesValueError
  | some (ff, q) => .ok { st with charges := setAssoc st.charges ff q }

/-- One line of the ITP loop body. -/
def itpStep (st : ItpState) (fl : ItpFlags) (raw : String) : Except ItpErr (ItpState × ItpFlags) :=
  match itpClassify fl raw with
  | (.skip, fl') => .ok (st, fl')
  | (.atomEntry, fl') => (atomEntryStep st (pyStrip raw)).map (fun s => (s, fl'))
  | (.typesEntry, fl') => (typesEntryStep st (pyStrip raw)).map (fun s => (s, fl'))

/-- The lines of one ITP file; on failure, the state at the failure. -/
def itpLines (st : ItpState) (fl : ItpFlags) : List String → ItpState × ItpFlags × Option ItpErr
  | [] => (st, fl, none)
  | l :: rest =>
    match itpStep st fl l with
    | .error e => (st, fl, some e)
    | .ok (st', fl') => itpLines st' fl' rest

/-- The files in order; the three block flags are reinitialised per file,
the atom cursor and the charge table persist across files. -/
def itpFiles (st : ItpState) : List (List String) → ItpState × Option ItpErr
  | [] => (st, none)
  | f :: fs =>
    match itpLines st initFlags f with
    | (st', _, none) => itpFiles st' fs
    | (st', _, some e) => (st', some e)

/-- `Molecule.add_atom_types_from_itp(itp_filenames)`. -/
def add_atom_types_from_itp (atoms : List AtomRecord) (files : List (List String)) :
    ItpState × Option ItpErr :=
  if atoms.length = 0 then (⟨atoms, 0, []⟩, some .notLoaded)
  else itpFiles ⟨atoms, 0, []⟩ files

/-! Replays of the flag evolution, used to phrase hypotheses about "the
`[ atoms ]` (resp. `[ atomtypes ]`) entry lines" of an input.  The flags
depend only on the lines, never on the atom state, so these agree with what
the run processes. -/

def linesEntries (fl : ItpFlags) : List String → List (ItpLineKind × String)
  | [] => []
  | l :: rest =>
    match itpClassify fl l with
    | (.skip, fl') => linesEntries fl' rest
    | (.atomEntry, fl') => (.atomEntry, pyStrip l) :: linesEntries fl' rest
    | (.typesEntry, fl') => (.typesEntry, pyStrip l) :: linesEntries fl' rest

/-- The `[ atoms ]` entry lines (stripped) of one file. -/
def atomEntriesOf (f : List String) : List String :=
  (linesEntries initFlags f).filterMap
    (fun kl => match kl with | (.atomEntry, l) => some l | _ => none)

/-- The `[ atomtypes ]` entry lines (stripped) of one file. -/
def typesEntriesOf (f : List String) : List String :=
  (linesEntries initFlags f).filterMap
    (fun kl => match kl with | (.typesEntry, l) => some l | _ => none)

/-- All `[ atoms ]` entry lines across the files, in processing order. -/
def atomEntries (files : List (List String)) : List String :=
  (files.map atomEntriesOf).flatten

/-- Every `[ atomtypes ]` entry line of every file tokenises and converts. -/
def typesWf (files : List (List String)) : Bool :=
  files.all (fun f => (typesEntriesOf f).all (fun l => (parseTypesEntry l).isSome))

/-- Entry `i` of the ITP atoms block aligns with atom `i` of the
collection, for the first `k` entries: each parses and its `resid` equals
the `resid` of the collection at the same position. -/
def alignedb (atoms : List AtomRecord) : Nat → List String → Bool
  | _, [] => true
  | i, l :: ls =>
    (match parseAtomEntry l, (atoms.get? i).map (fun a => a.resid) with
     | some (_, _, rq), some rp => rp == rq
     | _, _ => false) && alignedb atoms (i + 1) ls

/-- The force-field-type token (token 1) of an entry line. -/
def entryFF (line : String) : String :=
  match splitWs line with
  | _ :: t1 :: _ => t1
  | _ => ""

/-- The `[ atoms ]` entry lines of `lines` when processing starts with
flags `fl` (so `atomEntriesOf f = aEntriesF initFlags f`). -/
def aEntriesF (fl : ItpFlags) (lines : List String) : List String :=
  (linesEntries fl lines).filterMap
    (fun kl => match kl with | (.atomEntry, l) => some l | _ => none)

/-- The `[ atomtypes ]` entry lines of `lines` from flags `fl`. -/
def tEntriesF (fl : ItpFlags) (lines : List String) : List String :=
  (linesEntries fl lines).filterMap
    (fun kl => match kl with | (.typesEntry, l) => some l | _ => none)

/-! ## Concrete fixtures used by witnesses and counterexamples -/

/-- A PDB-parsed atom with the given residue id (all other fields fixed). -/
def sampleAtom (rid : Int) : AtomRecord :=
  ⟨1, "CA", "ALA", 'X', rid, ⟨0, 1⟩, ⟨0, 1⟩, ⟨0, 1⟩, ⟨1, 1⟩, ⟨0, 1⟩, ""⟩

/-- The well-formed PDB line of the column-fidelity example: columns 6 to 11
hold `    1`, 12 to 16 ` CA `, 17 to 20 `ALA`, 21 a blank, 22 to 26 `   1`. -/
def examplePdbLine : String :=
  "ATOM      1  CA  ALA     1      11.104  22.200   3.000  1.00  0.00"

/-- A small ITP file whose single atoms entry aligns with `sampleAtom 1` and
whose single atomtypes entry gives CT1 the charge -0.27. -/
def exampleItpFile : List String :=
  ["; generated", "[ atoms ]", "1 CT1 1 ALA CA", "", "[ atomtypes ]",
   "CT1 6 12.011 -0.27 A 0.35 0.27"]

/-! ## C5: PDB column fidelity -/

/-- C5 (confirmed).  For every well-formed PDB line tagged `ATOM  ` the
parser extracts each field byte-identically from the fixed columns:
atom id from columns 6 to 11 as an integer, atom name and residue name
trimmed from 12 to 16 and 17 to 20, the chain from column 21 with a blank
normalised to X, residue id from 22 to 26 as an integer (falling back to 0),
and the five floats from their fixed 8/8/8/6/6 column slices; on the
exhibited example line this yields atom_id 1, atom_name CA, residue_name
ALA, chain X and residue_id 1. -/
theorem pdb_column_fidelity :
    (∀ (line : String) (r : AtomRecord), pySlice line 0 6 = "ATOM  " →
      AtomRecord.ofLine? line = some r →
        pyInt? (pySlice line 6 11) = some r.atomid ∧
        r.atomname = pyStrip (pySlice line 12 16) ∧
        r.resname = pyStrip (pySlice line 17 20) ∧
        (∃ c, charAt? line 21 = some c ∧ r.chain = (if c = ' ' then 'X' else c)) ∧
        r.resid = (pyInt? (pySlice line 22 26)).getD 0 ∧
        pyFloat? (pySlice line 30 38) = some r.x ∧
        pyFloat? (pySlice line 38 46) = some r.y ∧
        pyFloat? (pySlice line 46 54) = some r.z ∧
        pyFloat? (pySlice line 54 60) = some r.occupancy ∧
        pyFloat? (pySlice line 60 66) = some r.tempfactor) ∧
    (∃ r, AtomRecord.ofLine? examplePdbLine = some r ∧
      r.atomid = 1 ∧ r.atomname = "CA" ∧ r.resname = "ALA" ∧ r.chain = 'X' ∧ r.resid = 1) := by
  constructor
  · intro line r _ h
    unfold AtomRecord.ofLine? at h
    split at h
    · cases h
      exact ⟨by assumption, rfl, rfl, ⟨_, by assumption, rfl⟩, rfl,
             by assumption, by assumption, by assumption, by assumption, by assumption⟩
    · cases h
  · exact ⟨⟨1, "CA", "ALA", 'X', 1, ⟨11104, 1000⟩, ⟨22200, 1000⟩, ⟨3000, 1000⟩,
            ⟨100, 100⟩, ⟨0, 100⟩, ""⟩, by decide, rfl, rfl, rfl, rfl, rfl⟩

/-- Witness for `pdb_column_fidelity`: its universal part applied to the
concrete example line. -/
theorem pdb_column_fidelity_witness :
    ∃ r, AtomRecord.ofLine? examplePdbLine = some r ∧
      pyInt? (pySlice examplePdbLine 6 11) = some r.atomid ∧
      r.resid = (pyInt? (pySlice examplePdbLine 22 26)).getD 0 := by
  obtain ⟨r, hr, _⟩ := pdb_column_fidelity.2
  have h := pdb_column_fidelity.1 examplePdbLine r (by decide) hr
  exact ⟨r, hr, h.1, h.2.2.2.2.1⟩

/-! ## C6: solvent filter -/

/-- C6 (confirmed).  The solvent filter is idempotent; one pass removes
exactly the atoms whose residue name is one of WAT, T3P, HOH, PW, W; and
the survivors keep their relative order (the result is a sublist of the
input). -/
theorem solvent_filter_idempotent (atoms : List AtomRecord) :
    nuke_solvent (nuke_solvent atoms) = nuke_solvent atoms ∧
    (∀ a : AtomRecord, a ∈ nuke_solvent atoms ↔ a ∈ atoms ∧ a.resname ∉ solvent_residues) ∧
    (nuke_solvent atoms).Sublist atoms := by
  refine ⟨?_, ?_, List.filter_sublist _⟩
  · exact List.filter_eq_self.mpr (fun a ha => (List.mem_filter.mp ha).2)
  · intro a
    simp [nuke_solvent, List.mem_filter]

/-- Witness for `solvent_filter_idempotent` at a concrete two-atom
collection (one water, one protein atom). -/
theorem solvent_filter_idempotent_witness :
    nuke_solvent (nuke_solvent [sampleAtom 1, { sampleAtom 2 with resname := "WAT" }])
      = nuke_solvent [sampleAtom 1, { sampleAtom 2 with resname := "WAT" }] ∧
    ({ sampleAtom 2 with resname := "WAT" } : AtomRecord)
      ∉ nuke_solvent [sampleAtom 1, { sampleAtom 2 with resname := "WAT" }] := by
  refine ⟨(solvent_filter_idempotent _).1, fun hmem => ?_⟩
  have h := ((solvent_filter_idempotent _).2.1 _).mp hmem
  exact h.2 (by decide)

/-! ## C7: resolution before atoms are loaded -/

/-- C7 (confirmed).  Attempting ITP atom-type resolution on an empty atom
collection aborts at once: the diagnostic is emitted and the process exits
with code 1, before touching any file. -/
theorem itp_unloaded_precondition (files : List (List String)) :
    add_atom_types_from_itp [] files = (⟨[], 0, []⟩, some .notLoaded) ∧
    ItpErr.explicitExit .notLoaded = some 1 ∧
    ItpErr.diagnostic .notLoaded = "BUG: Should have loaded atoms first" := by
  exact ⟨rfl, rfl, rfl⟩

/-! ## C8: CHARMM parsing scenario -/

/-- C8 counterexample.  On the input RESI ALA / ATOM CA CT1 0.02 / BOND CA
CB the resolver terminates without error, but the charge table has no entry
at key CA under residue ALA: the ATOM card is keyed by its type token CT1,
not by its atom-name token CA, so the entry the claim requires is absent. -/
theorem charmm_scenario_counterexample :
    (add_charmm_topology initCharmm ["RESI ALA", "ATOM CA CT1 0.02", "BOND CA CB"]).2 = none ∧
    ((getAssoc (add_charmm_topology initCharmm
        ["RESI ALA", "ATOM CA CT1 0.02", "BOND CA CB"]).1.charge_by_type "ALA").bind
      (fun t => getAssoc t "CA")) = none := by
  exact ⟨by decide, by decide⟩

/-- C8 (corrected).  On the input RESI ALA / ATOM CA CT1 0.02 / BOND CA CB
the resolver terminates without raising, and the charge table under residue
ALA holds 0.02 at the key CT1 (the type token of the ATOM card, which is
what the code keys charges by) and the built-in default -0.30 at NH3
installed when the RESI card opened the residue context. -/
theorem charmm_parsing_scenario :
    (add_charmm_topology initCharmm ["RESI ALA", "ATOM CA CT1 0.02", "BOND CA CB"]).2 = none ∧
    (((getAssoc (add_charmm_topology initCharmm
        ["RESI ALA", "ATOM CA CT1 0.02", "BOND CA CB"]).1.charge_by_type "ALA").bind
      (fun t => getAssoc t "CT1")).map (fun q => q.eqv ⟨2, 100⟩)) = some true ∧
    (((getAssoc (add_charmm_topology initCharmm
        ["RESI ALA", "ATOM CA CT1 0.02", "BOND CA CB"]).1.charge_by_type "ALA").bind
      (fun t => getAssoc t "NH3")).map (fun q => q.eqv ⟨-30, 100⟩)) = some true := by
  exact ⟨by decide, by decide, by decide⟩

/-! ## C4: CHARMM comment stripping versus continuation check -/

/-- C4 counterexample.  The line RESI ALA followed by a comment whose text
ends in a dash: after comment stripping it does not end with a dash, yet
the code treats it as a continuation line (the check runs on the raw line,
before the comment is stripped), discards it together with the following
RESI GLY line, and finishes with an empty charge table.  Had the comment
been stripped first, both residue contexts would have been opened. -/
theorem charmm_comment_order_counterexample :
    pyEndsWith (pyStrip "RESI ALA ! see note-") "-" = true ∧
    pyEndsWith (pyStrip (nukeComment "RESI ALA ! see note-")) "-" = false ∧
    (add_charmm_topology initCharmm ["RESI ALA ! see note-", "RESI GLY"]).2 = none ∧
    (add_charmm_topology initCharmm ["RESI ALA ! see note-", "RESI GLY"]).1.charge_by_type
      = [] := by
  exact ⟨by decide, by decide, by decide, by decide⟩

/-- C4 (corrected).  For every input line the continuation-line check runs
first, on the raw line (a raw line whose trimmed form ends in a dash is
discarded along with the following physical line, whatever its comments
say); only for non-continuation lines is the comment then stripped before
all further processing, so two non-continuation lines with the same
comment-stripped content are processed identically. -/
theorem charmm_comment_strip_order :
    (∀ (s : CharmmState) (l : String) (rest : List String),
      pyEndsWith (pyStrip l) "-" = true →
      add_charmm_topology s (l :: rest)
        = match rest with
          | [] => (s, none)
          | _ :: rest' => add_charmm_topology s rest') ∧
    (∀ (s : CharmmState) (l1 l2 : String) (rest : List String),
      pyEndsWith (pyStrip l1) "-" = false → pyEndsWith (pyStrip l2) "-" = false →
      pyStrip (nukeComment l1) = pyStrip (nukeComment l2) →
      add_charmm_topology s (l1 :: rest) = add_charmm_topology s (l2 :: rest)) := by
  constructor
  · intro s l rest h
    conv_lhs => rw [add_charmm_topology.eq_def]
    simp only [h, if_true]
  · intro s l1 l2 rest h1 h2 h12
    conv_lhs => rw [add_charmm_topology.eq_def]
    conv_rhs => rw [add_charmm_topology.eq_def]
    simp only [h1, h2, h12, Bool.false_eq_true, if_false]

/-- Witness for `charmm_comment_strip_order` at concrete lines: a dash-
terminated raw line is discarded, and a trailing comment does not change
how a non-continuation card is processed. -/
theorem charmm_comment_strip_order_witness :
    add_charmm_topology initCharmm ["x-"] = (initCharmm, none) ∧
    add_charmm_topology initCharmm ["RESI ALA"]
      = add_charmm_topology initCharmm ["RESI ALA ! note"] := by
  constructor
  · exact charmm_comment_strip_order.1 initCharmm "x-" [] (by decide)
  · exact charmm_comment_strip_order.2 initCharmm "RESI ALA" "RESI ALA ! note" []
      (by decide) (by decide) (by decide)

/-! ## C10: ATOM card before any RESI card -/

/-- One-step unfolding: a continuation line discards itself and the next
physical line. -/
theorem add_charmm_cons_cont (s : CharmmState) (l : String) (rest : List String)
    (h : pyEndsWith (pyStrip l) "-" = true) :
    add_charmm_topology s (l :: rest)
      = match rest with
        | [] => (s, none)
        | _ :: rest' => add_charmm_topology s rest' := by
  conv_lhs => rw [add_charmm_topology.eq_def]
  simp only [h, if_true]

/-- One-step unfolding: a line empty after comment stripping is skipped. -/
theorem add_charmm_cons_skip (s : CharmmState) (l : String) (rest : List String)
    (h : ¬ pyEndsWith (pyStrip l) "-" = true) (hb : pyStrip (nukeComment l) = "") :
    add_charmm_topology s (l :: rest) = add_charmm_topology s rest := by
  have hf : pyEndsWith (pyStrip l) "-" = false := by
    rwa [Bool.not_eq_true] at h
  conv_lhs => rw [add_charmm_topology.eq_def]
  simp only [hf, Bool.false_eq_true, if_false, hb, if_true]

/-- One-step unfolding: a nonempty comment-stripped line is dispatched as a
card. -/
theorem add_charmm_cons_card (s : CharmmState) (l : String) (rest : List String)
    (h : ¬ pyEndsWith (pyStrip l) "-" = true) (hb : ¬ pyStrip (nukeComment l) = "") :
    add_charmm_topology s (l :: rest)
      = match charmmCard s (pyStrip (nukeComment l)) with
        | .error e => (s, some e)
        | .ok s' => add_charmm_topology s' rest := by
  have hf : pyEndsWith (pyStrip l) "-" = false := by
    rwa [Bool.not_eq_true] at h
  conv_lhs => rw [add_charmm_topology.eq_def]
  simp only [hf, Bool.false_eq_true, if_false]
  rw [if_neg hb]

/-- A successful `BOND` loop never touches the charge table. -/
theorem addBondPairs_ok_charge :
    ∀ (s : CharmmState) (bonds : List String) (s' : CharmmState),
      addBondPairs s bonds = .ok s' →
      s'.charge_by_type = s.charge_by_type := by
  intro s bonds
  induction s, bonds using addBondPairs.induct with
  | case1 s => intro s' h; cases h; rfl
  | case2 s b => intro s' h; exact Except.noConfusion h
  | case3 s b1 b2 rest hget =>
    intro s' h
    unfold addBondPairs at h
    rw [hget] at h
    exact Except.noConfusion h
  | case4 s b1 b2 rest tbl hget tbl2 ih =>
    intro s' h
    unfold addBondPairs at h
    rw [hget] at h
    exact ih s' h

/-- A successful non-`RESI` card leaves an empty charge table empty. -/
theorem charmmCard_ok_empty (s : CharmmState) (l : String)
    (hne : pySlice l 0 4 ≠ "RESI") (hempty : s.charge_by_type = []) :
    ∀ s', charmmCard s l = .ok s' → s'.charge_by_type = [] := by
  intro s' h
  unfold charmmCard at h
  rw [if_neg hne] at h
  split at h
  · split at h
    · split at h
      · exact Except.noConfusion h
      · rw [hempty] at h
        simp only [getAssoc] at h
        exact Except.noConfusion h
    · exact Except.noConfusion h
  · split at h
    · rw [addBondPairs_ok_charge s _ s' h]
      exact hempty
    · cases h; exact hempty

/-- While no `RESI` card has been processed, the charge table stays empty,
whether the run succeeds or aborts. -/
theorem charmm_no_resi_invariant :
    ∀ (s : CharmmState) (lines : List String),
      s.charge_by_type = [] →
      (∀ l ∈ lines, pySlice (pyStrip (nukeComment l)) 0 4 ≠ "RESI") →
      ((add_charmm_topology s lines).1).charge_by_type = [] := by
  intro s lines
  induction s, lines using add_charmm_topology.induct with
  | case1 s => intro hs _; exact hs
  | case2 s l hcont =>
    intro hs _
    rw [add_charmm_cons_cont s l [] hcont]
    exact hs
  | case3 s l hcont r rest' ih =>
    intro hs hall
    rw [add_charmm_cons_cont s l (r :: rest') hcont]
    exact ih hs (fun x hx => hall x (List.mem_cons_of_mem _ (List.mem_cons_of_mem _ hx)))
  | case4 s l rest hcont l' hb ih =>
    intro hs hall
    rw [add_charmm_cons_skip s l rest hcont hb]
    exact ih hs (fun x hx => hall x (List.mem_cons_of_mem _ hx))
  | case5 s l rest hcont l' hb e herr =>
    intro hs hall
    rw [add_charmm_cons_card s l rest hcont hb, herr]
    exact hs
  | case6 s l rest hcont l' hb s2 hok ih =>
    intro hs hall
    rw [add_charmm_cons_card s l rest hcont hb, hok]
    exact ih (charmmCard_ok_empty s _ (hall l (List.mem_cons_self _ _)) hs s2 hok)
      (fun x hx => hall x (List.mem_cons_of_mem _ hx))

/-- C10 (confirmed).  A well-formed `ATOM name type charge` card dispatched
before any `RESI` card is a fatal `KeyError` on the never-initialised
current-residue context (the charge table is empty before the first `RESI`,
and stays empty), not an ignored or recorded card. -/
theorem charmm_atom_before_resi_fatal :
    (∀ (s : CharmmState) (l t0 t1 t2 t3 : String) (q : PyFloat),
      s.charge_by_type = [] →
      pySlice l 0 4 = "ATOM" → splitWs l = [t0, t1, t2, t3] → pyFloat? t3 = some q →
      charmmCard s l = .error (.keyError s.current_residue)) ∧
    (∀ lines : List String,
      (∀ l ∈ lines, pySlice (pyStrip (nukeComment l)) 0 4 ≠ "RESI") →
      ((add_charmm_topology initCharmm lines).1).charge_by_type = []) := by
  constructor
  · intro s l t0 t1 t2 t3 q hempty hatom htoks hq
    unfold charmmCard
    rw [if_neg (by rw [hatom]; decide), if_pos hatom, htoks]
    simp only [hq, hempty, getAssoc]
  · intro lines hall
    exact charmm_no_resi_invariant initCharmm lines rfl hall

/-- Witness for `charmm_atom_before_resi_fatal`: the concrete card
ATOM CA CT1 0.02 in the initial state. -/
theorem charmm_atom_before_resi_fatal_witness :
    charmmCard initCharmm "ATOM CA CT1 0.02" = .error (.keyError "") ∧
    ((add_charmm_topology initCharmm ["ATOM CA CT1 0.02"]).1).charge_by_type = [] := by
  constructor
  · exact charmm_atom_before_resi_fatal.1 initCharmm "ATOM CA CT1 0.02"
      "ATOM" "CA" "CT1" "0.02" ⟨2, 100⟩ rfl (by decide) (by decide) (by decide)
  · exact charmm_atom_before_resi_fatal.2 ["ATOM CA CT1 0.02"] (by decide)

/-! ## C2: PSF emission and the charge join -/

/-- C2 (confirmed).  PSF emission fails if and only if some surviving atom
has a force-field type that is not a key of the flat charge table —
including the case of an absent table (no ITP resolver ever ran), where
every lookup fails; when every lookup succeeds, emission succeeds and each
emitted charge field is exactly the value of the table at that atom's
force-field type. -/
theorem psf_charge_join (atoms : List AtomRecord) (charges : Option (List (String × PyFloat))) :
    ((∃ e, print_as_psf atoms charges = .error e) ↔
      ∃ a ∈ atoms, lookupCharge charges a.ff_type = none) ∧
    (∀ lines, print_as_psf atoms charges = .ok lines →
      lines.length = atoms.length ∧
      ∀ (i : Nat) (a : AtomRecord), atoms.get? i = some a →
        ∃ pl, lines.get? i = some pl ∧ pl.ff_type = a.ff_type ∧
          lookupCharge charges a.ff_type = some pl.charge) := by
  induction atoms with
  | nil =>
    constructor
    · constructor
      · rintro ⟨e, he⟩; exact Except.noConfusion he
      · rintro ⟨a, ha, _⟩; exact absurd ha (List.not_mem_nil a)
    · intro lines h
      cases h
      exact ⟨rfl, fun i a ha => Option.noConfusion ha⟩
  | cons a as ih =>
    match hch : charges with
    | none =>
      constructor
      · constructor
        · intro _; exact ⟨a, List.mem_cons_self a as, rfl⟩
        · intro _; exact ⟨PsfErr.attributeError, rfl⟩
      · intro lines h
        exact Except.noConfusion h
    | some t =>
      match hga : getAssoc t a.ff_type with
      | none =>
        constructor
        · constructor
          · intro _
            refine ⟨a, List.mem_cons_self a as, ?_⟩
            simpa [lookupCharge] using hga
          · intro _
            refine ⟨PsfErr.keyError a.ff_type, ?_⟩
            simp only [print_as_psf, hga]
        · intro lines h
          simp only [print_as_psf, hga] at h
          exact Except.noConfusion h
      | some q =>
        match hrec : print_as_psf as (some t) with
        | .error e =>
          constructor
          · constructor
            · intro _
              obtain ⟨a2, ha2, hl2⟩ := ih.1.mp ⟨e, hrec⟩
              exact ⟨a2, List.mem_cons_of_mem a ha2, hl2⟩
            · intro _
              refine ⟨e, ?_⟩
              simp only [print_as_psf, hga, hrec]
          · intro lines h
            simp only [print_as_psf, hga, hrec] at h
            exact Except.noConfusion h
        | .ok ls =>
          constructor
          · constructor
            · rintro ⟨e, he⟩
              simp only [print_as_psf, hga, hrec] at he
              exact Except.noConfusion he
            · rintro ⟨a2, ha2, hl2⟩
              rcases List.mem_cons.mp ha2 with rfl | ha2
              · rw [show lookupCharge (some t) a2.ff_type = getAssoc t a2.ff_type from rfl, hga]
                  at hl2
                exact Option.noConfusion hl2
              · obtain ⟨e, he⟩ := ih.1.mpr ⟨a2, ha2, hl2⟩
                rw [hrec] at he
                exact Except.noConfusion he
          · intro lines h
            simp only [print_as_psf, hga, hrec] at h
            cases h
            obtain ⟨hlen, hpt⟩ := ih.2 ls hrec
            constructor
            · simp [hlen]
            · intro i a2 ha2
              match i with
              | 0 =>
                cases ha2
                exact ⟨_, rfl, rfl, by simpa [lookupCharge] using hga⟩
              | i + 1 =>
                exact hpt i a2 ha2

/-- Witness for `psf_charge_join`: with the table absent emission fails;
with a table binding the type of the single atom, the emitted line carries
the value of the table. -/
theorem psf_charge_join_witness :
    (∃ e, print_as_psf [sampleAtom 1] none = .error e) ∧
    (∃ pl, ([⟨1, 'X', 1, "ALA", "CA", "", ⟨5, 10⟩, ⟨1, 1⟩, 0⟩] : List PsfAtomLine).get? 0
        = some pl ∧
      pl.ff_type = (sampleAtom 1).ff_type ∧
      lookupCharge (some [("", ⟨5, 10⟩)]) (sampleAtom 1).ff_type = some pl.charge) := by
  constructor
  · exact (psf_charge_join [sampleAtom 1] none).1.mpr
      ⟨sampleAtom 1, List.mem_cons_self _ _, rfl⟩
  · exact ((psf_charge_join [sampleAtom 1] (some [("", ⟨5, 10⟩)])).2
      [⟨1, 'X', 1, "ALA", "CA", "", ⟨5, 10⟩, ⟨1, 1⟩, 0⟩] (by decide)).2 0 (sampleAtom 1) rfl

/-! ## C3: behaviour of the ifdef-skip flag -/

/-- C3 counterexample.  A `[ atoms ]` section header occurring while the
ifdef-skip flag is set still flips the current-block state to the atoms
block (the header checks precede the flag check in the elif chain), so a
line inside an ifdef region does change the current-block state; as a
downstream consequence, an entry line after `#endif` is processed as an
atom entry and assigns a force-field type. -/
theorem ifdef_block_header_counterexample :
    (itpClassify ⟨false, false, true⟩ "[ atoms ]").2.in_atom_block = true ∧
    (add_atom_types_from_itp [sampleAtom 1]
      [["#ifdef POSRES", "[ atoms ]", "#endif", "1 CT1 1 ALA CA"]]).1.atoms.map
        (fun a => a.ff_type) = ["CT1"] := by
  exact ⟨by decide, by decide⟩

/-- While the ifdef-skip flag is set, every line classifies as skipped. -/
theorem itpClassify_ifdef_skip (fl : ItpFlags) (raw : String) (h : fl.in_ifdef_block = true) :
    (itpClassify fl raw).1 = ItpLineKind.skip := by
  obtain ⟨fa, ft, fi⟩ := fl
  simp only at h
  subst h
  simp only [itpClassify]
  repeat' split
  all_goals first | rfl | simp_all

/-- C3 (corrected).  While the ifdef-skip flag is set no line is processed
as an atom or atomtype entry — every step succeeds and leaves the atom
state untouched, only the flags can move — but section headers inside the
region do change the current-block state: a `[ atoms ]` header flips the
atoms-block flag on even while skipping. -/
theorem ifdef_skips_entries_not_headers :
    (∀ (st : ItpState) (fl : ItpFlags) (raw : String), fl.in_ifdef_block = true →
      itpStep st fl raw = .ok (st, (itpClassify fl raw).2)) ∧
    (∀ (fl : ItpFlags) (raw : String), fl.in_ifdef_block = true →
      pyStartsWith (pyStrip raw) "[ atoms ]" = true →
      (itpClassify fl raw).2.in_atom_block = true ∧
      (itpClassify fl raw).2.in_ifdef_block = true) := by
  constructor
  · intro st fl raw h
    have hk := itpClassify_ifdef_skip fl raw h
    rcases hcl : itpClassify fl raw with ⟨k, fl2⟩
    rw [hcl] at hk
    simp only at hk
    subst hk
    unfold itpStep
    rw [hcl]
  · intro fl raw h hstarts
    unfold itpClassify
    simp only [hstarts, if_true]
    exact ⟨trivial, h⟩

/-- Witness for `ifdef_skips_entries_not_headers` on a concrete state and
lines. -/
theorem ifdef_skips_entries_not_headers_witness :
    itpStep ⟨[sampleAtom 1], 0, []⟩ ⟨true, false, true⟩ "1 CT1 1 ALA CA"
      = .ok (⟨[sampleAtom 1], 0, []⟩,
             (itpClassify ⟨true, false, true⟩ "1 CT1 1 ALA CA").2) ∧
    (itpClassify ⟨false, true, true⟩ "[ atoms ]").2.in_atom_block = true := by
  constructor
  · exact ifdef_skips_entries_not_headers.1 _ _ _ rfl
  · exact (ifdef_skips_entries_not_headers.2 ⟨false, true, true⟩ "[ atoms ]" rfl (by decide)).1

/-! ## ITP resolver: stepping and bookkeeping lemmas -/

theorem linesEntries_cons (fl : ItpFlags) (l : String) (rest : List String) :
    linesEntries fl (l :: rest)
      = match itpClassify fl l with
        | (.skip, fl2) => linesEntries fl2 rest
        | (.atomEntry, fl2) => (.atomEntry, pyStrip l) :: linesEntries fl2 rest
        | (.typesEntry, fl2) => (.typesEntry, pyStrip l) :: linesEntries fl2 rest := rfl

theorem aEntriesF_skip {fl fl2 : ItpFlags} {l : String} (rest : List String)
    (h : itpClassify fl l = (.skip, fl2)) :
    aEntriesF fl (l :: rest) = aEntriesF fl2 rest := by
  unfold aEntriesF
  rw [linesEntries_cons, h]

theorem aEntriesF_atom {fl fl2 : ItpFlags} {l : String} (rest : List String)
    (h : itpClassify fl l = (.atomEntry, fl2)) :
    aEntriesF fl (l :: rest) = pyStrip l :: aEntriesF fl2 rest := by
  unfold aEntriesF
  rw [linesEntries_cons, h]
  rfl

theorem aEntriesF_types {fl fl2 : ItpFlags} {l : String} (rest : List String)
    (h : itpClassify fl l = (.typesEntry, fl2)) :
    aEntriesF fl (l :: rest) = aEntriesF fl2 rest := by
  unfold aEntriesF
  rw [linesEntries_cons, h]
  rfl

theorem tEntriesF_skip {fl fl2 : ItpFlags} {l : String} (rest : List String)
    (h : itpClassify fl l = (.skip, fl2)) :
    tEntriesF fl (l :: rest) = tEntriesF fl2 rest := by
  unfold tEntriesF
  rw [linesEntries_cons, h]

theorem tEntriesF_atom {fl fl2 : ItpFlags} {l : String} (rest : List String)
    (h : itpClassify fl l = (.atomEntry, fl2)) :
    tEntriesF fl (l :: rest) = tEntriesF fl2 rest := by
  unfold tEntriesF
  rw [linesEntries_cons, h]
  rfl

theorem tEntriesF_types {fl fl2 : ItpFlags} {l : String} (rest : List String)
    (h : itpClassify fl l = (.typesEntry, fl2)) :
    tEntriesF fl (l :: rest) = pyStrip l :: tEntriesF fl2 rest := by
  unfold tEntriesF
  rw [linesEntries_cons, h]
  rfl

theorem itpStep_skip {fl fl2 : ItpFlags} {l : String} (st : ItpState)
    (h : itpClassify fl l = (.skip, fl2)) : itpStep st fl l = .ok (st, fl2) := by
  unfold itpStep
  rw [h]

theorem itpStep_atom {fl fl2 : ItpFlags} {l : String} (st : ItpState)
    (h : itpClassify fl l = (.atomEntry, fl2)) :
    itpStep st fl l = (atomEntryStep st (pyStrip l)).map (fun s => (s, fl2)) := by
  unfold itpStep
  rw [h]

theorem itpStep_types {fl fl2 : ItpFlags} {l : String} (st : ItpState)
    (h : itpClassify fl l = (.typesEntry, fl2)) :
    itpStep st fl l = (typesEntryStep st (pyStrip l)).map (fun s => (s, fl2)) := by
  unfold itpStep
  rw [h]

theorem itpLines_cons (st : ItpState) (fl : ItpFlags) (l : String) (rest : List String) :
    itpLines st fl (l :: rest)
      = match itpStep st fl l with
        | .error e => (st, fl, some e)
        | .ok (st2, fl2) => itpLines st2 fl2 rest := rfl

theorem get?_set_ne {α : Type} :
    ∀ (l : List α) (i j : Nat) (a : α), i ≠ j → (l.set i a).get? j = l.get? j := by
  intro l
  induction l with
  | nil => intro i j a _; rfl
  | cons x xs ih =>
    intro i j a hij
    match i, j with
    | 0, 0 => exact absurd rfl hij
    | 0, j + 1 => rfl
    | i + 1, 0 => rfl
    | i + 1, j + 1 => exact ih i j a (fun hh => hij (by rw [hh]))

theorem get?_set_self {α : Type} :
    ∀ (l : List α) (i : Nat) (a b : α), l.get? i = some b → (l.set i a).get? i = some a := by
  intro l
  induction l with
  | nil => intro i a b h; exact Option.noConfusion h
  | cons x xs ih =>
    intro i a b h
    match i with
    | 0 => rfl
    | i + 1 => exact ih i a b h

theorem alignedb_congr {atoms atoms2 : List AtomRecord}
    (h : ∀ j, ((atoms2.get? j).map (fun a => a.resid))
        = ((atoms.get? j).map (fun a => a.resid))) :
    ∀ (es : List String) (i : Nat), alignedb atoms2 i es = alignedb atoms i es := by
  intro es
  induction es with
  | nil => intro i; rfl
  | cons l ls ih =>
    intro i
    unfold alignedb
    rw [h i, ih (i + 1)]

theorem alignedb_append (atoms : List AtomRecord) :
    ∀ (l1 l2 : List String) (i : Nat),
      alignedb atoms i (l1 ++ l2)
        = (alignedb atoms i l1 && alignedb atoms (i + l1.length) l2) := by
  intro l1
  induction l1 with
  | nil => intro l2 i; simp [alignedb]
  | cons l ls ih =>
    intro l2 i
    have hidx : i + (ls.length + 1) = (i + 1) + ls.length := by omega
    simp only [List.cons_append]
    unfold alignedb
    rw [ih l2 (i + 1), List.length_cons, hidx, Bool.and_assoc]
    rw [← alignedb.eq_def]

theorem alignedb_all_parse {atoms : List AtomRecord} :
    ∀ (es : List String) (i : Nat), alignedb atoms i es = true →
      ∀ l ∈ es, ∃ e, parseAtomEntry l = some e := by
  intro es
  induction es with
  | nil => intro i _ l hl; exact absurd hl (List.not_mem_nil l)
  | cons l0 ls ih =>
    intro i h l hl
    unfold alignedb at h
    rw [Bool.and_eq_true] at h
    rcases List.mem_cons.mp hl with rfl | hl
    · rcases hp : parseAtomEntry l with _ | e
      · rw [hp] at h
        exact absurd h.1 (by simp)
      · exact ⟨e, rfl⟩
    · exact ih (i + 1) h.2 l hl

theorem wordsAux_ne_nil :
    ∀ (cs : List Char) (acc : List Char) (w : String), w ∈ wordsAux cs acc → w ≠ "" := by
  intro cs
  induction cs with
  | nil =>
    intro acc w hw
    unfold wordsAux at hw
    split at hw
    · exact absurd hw (List.not_mem_nil w)
    · rcases List.mem_singleton.mp hw with rfl
      intro hcon
      have : acc.reverse = [] := by
        have := congrArg String.data hcon
        simpa using this
      simp at this
      simp_all [List.isEmpty_iff]
  | cons c cs ih =>
    intro acc w hw
    unfold wordsAux at hw
    split at hw
    · split at hw
      · exact ih [] w hw
      · rcases List.mem_cons.mp hw with rfl | hw
        · intro hcon
          have : acc.reverse = [] := by
            have := congrArg String.data hcon
            simpa using this
          simp_all [List.isEmpty_iff]
        · exact ih [] w hw
    · exact ih (c :: acc) w hw

theorem entryFF_of_parse {l : String} {aid : Int} {ff : String} {rq : Int}
    (h : parseAtomEntry l = some (aid, ff, rq)) : entryFF l = ff ∧ ff ≠ "" := by
  unfold parseAtomEntry at h
  split at h
  · next a0 a1 a2 b4 b5 ts heq =>
    split at h
    · next v0 v2 hv0 hv2 =>
      cases h
      constructor
      · unfold entryFF
        rw [heq]
      · have : ff ∈ splitWs l := by
          rw [heq]
          exact List.mem_cons_of_mem _ (List.mem_cons_self _ _)
        exact wordsAux_ne_nil _ _ _ this
    · exact Option.noConfusion h
  · exact Option.noConfusion h

theorem alignedb_cons (atoms : List AtomRecord) (i : Nat) (l : String) (ls : List String) :
    alignedb atoms i (l :: ls)
      = ((match parseAtomEntry l, (atoms.get? i).map (fun a => a.resid) with
          | some (_, _, rq), some rp => rp == rq
          | _, _ => false) && alignedb atoms (i + 1) ls) := rfl

theorem alignedb_cons_true {atoms : List AtomRecord} {i : Nat} {l : String} {ls : List String}
    (h : alignedb atoms i (l :: ls) = true) :
    (∃ aid ff rq a, parseAtomEntry l = some (aid, ff, rq) ∧ atoms.get? i = some a ∧
      a.resid = rq) ∧ alignedb atoms (i + 1) ls = true := by
  rw [alignedb_cons, Bool.and_eq_true] at h
  refine ⟨?_, h.2⟩
  have h1 := h.1
  rcases hp : parseAtomEntry l with _ | ⟨aid, ff, rq⟩ <;> rw [hp] at h1
  · simp at h1
  · rcases hg : atoms.get? i with _ | a <;> rw [hg] at h1
    · simp at h1
    · exact ⟨aid, ff, rq, a, rfl, rfl, by simpa using h1⟩

theorem atomEntryStep_ok {line : String} {aid : Int} {ff : String} {rq : Int}
    {a : AtomRecord} (st : ItpState)
    (hp : parseAtomEntry line = some (aid, ff, rq))
    (hg : st.atoms.get? st.atom_i = some a) (hres : a.resid = rq) :
    atomEntryStep st line
      = .ok ⟨st.atoms.set st.atom_i { a with ff_type := ff }, st.atom_i + 1, st.charges⟩ := by
  unfold atomEntryStep
  simp only [hp, hg, hres, if_true]

theorem atomEntryStep_mismatch {line : String} {aid : Int} {ff : String} {rq : Int}
    {a : AtomRecord} (st : ItpState)
    (hp : parseAtomEntry line = some (aid, ff, rq))
    (hg : st.atoms.get? st.atom_i = some a) (hres : a.resid ≠ rq) :
    atomEntryStep st line = .error (.mismatch a.resid rq) := by
  unfold atomEntryStep
  simp only [hp, hg]
  rw [if_neg hres]

theorem typesEntryStep_ok {line : String} {ff : String} {q : PyFloat} (st : ItpState)
    (hpt : parseTypesEntry line = some (ff, q)) :
    typesEntryStep st line = .ok ⟨st.atoms, st.atom_i, setAssoc st.charges ff q⟩ := by
  unfold typesEntryStep
  simp only [hpt]

/-- Bookkeeping for a file run that only meets well-formed, aligned
entries: the run succeeds, the cursor advances by the number of atom
entries, residue ids are untouched, atoms outside the advanced window are
untouched, and each atom of the window receives the force-field token of
its entry. -/
theorem itpLines_success :
    ∀ (lines : List String) (st : ItpState) (fl : ItpFlags),
      alignedb st.atoms st.atom_i (aEntriesF fl lines) = true →
      (tEntriesF fl lines).all (fun l => (parseTypesEntry l).isSome) = true →
      ∃ st2 fl2, itpLines st fl lines = (st2, fl2, none) ∧
        st2.atom_i = st.atom_i + (aEntriesF fl lines).length ∧
        st2.atoms.length = st.atoms.length ∧
        (∀ j, ((st2.atoms.get? j).map (fun a => a.resid))
            = ((st.atoms.get? j).map (fun a => a.resid))) ∧
        (∀ j, j < st.atom_i → st2.atoms.get? j = st.atoms.get? j) ∧
        (∀ j, st.atom_i + (aEntriesF fl lines).length ≤ j →
          st2.atoms.get? j = st.atoms.get? j) ∧
        (∀ (m : Nat) (lm : String), (aEntriesF fl lines).get? m = some lm →
          ∃ a, st.atoms.get? (st.atom_i + m) = some a ∧
            st2.atoms.get? (st.atom_i + m) = some { a with ff_type := entryFF lm }) := by
  intro lines
  induction lines with
  | nil =>
    intro st fl _ _
    exact ⟨st, fl, rfl, rfl, rfl, fun j => rfl, fun j _ => rfl, fun j _ => rfl,
           fun m lm hm => Option.noConfusion hm⟩
  | cons l rest ih =>
    intro st fl ha ht
    rcases hcl : itpClassify fl l with ⟨k, fl'⟩
    match k, hcl with
    | .skip, hcl =>
      rw [aEntriesF_skip rest hcl] at ha ⊢
      rw [tEntriesF_skip rest hcl] at ht
      have hstep : itpLines st fl (l :: rest) = itpLines st fl' rest := by
        rw [itpLines_cons, itpStep_skip st hcl]
      rw [hstep]
      exact ih st fl' ha ht
    | .typesEntry, hcl =>
      rw [aEntriesF_types rest hcl] at ha ⊢
      rw [tEntriesF_types rest hcl] at ht
      rw [List.all_cons, Bool.and_eq_true] at ht
      obtain ⟨hhead, htrest⟩ := ht
      obtain ⟨⟨ff, q⟩, hpt⟩ := Option.isSome_iff_exists.mp hhead
      have hstep : itpLines st fl (l :: rest)
          = itpLines ⟨st.atoms, st.atom_i, setAssoc st.charges ff q⟩ fl' rest := by
        rw [itpLines_cons, itpStep_types st hcl, typesEntryStep_ok st hpt]
        rfl
      rw [hstep]
      exact ih ⟨st.atoms, st.atom_i, setAssoc st.charges ff q⟩ fl' ha htrest
    | .atomEntry, hcl =>
      rw [aEntriesF_atom rest hcl] at ha ⊢
      rw [tEntriesF_atom rest hcl] at ht
      obtain ⟨⟨aid, ff, rq, a, hp, hg, hres⟩, hatail⟩ := alignedb_cons_true ha
      have hstep : itpLines st fl (l :: rest)
          = itpLines ⟨st.atoms.set st.atom_i { a with ff_type := ff },
                      st.atom_i + 1, st.charges⟩ fl' rest := by
        rw [itpLines_cons, itpStep_atom st hcl, atomEntryStep_ok st hp hg hres]
        rfl
      have hsetmap : ∀ j,
          (((st.atoms.set st.atom_i { a with ff_type := ff }).get? j).map (fun x => x.resid))
            = ((st.atoms.get? j).map (fun x => x.resid)) := by
        intro j
        by_cases hj : st.atom_i = j
        · subst hj
          rw [get?_set_self st.atoms st.atom_i _ a hg, hg]
          rfl
        · rw [get?_set_ne st.atoms st.atom_i j _ hj]
      have ha1 : alignedb (st.atoms.set st.atom_i { a with ff_type := ff })
          (st.atom_i + 1) (aEntriesF fl' rest) = true := by
        rw [alignedb_congr hsetmap]
        exact hatail
      obtain ⟨st2, fl2, hrun2, hi2, hlen2, hmap2, hpre2, hsuf2, hpt2⟩ :=
        ih ⟨st.atoms.set st.atom_i { a with ff_type := ff }, st.atom_i + 1, st.charges⟩ fl' ha1 ht
      have hsetlen : (st.atoms.set st.atom_i { a with ff_type := ff }).length
          = st.atoms.length := List.length_set _ _ _
      refine ⟨st2, fl2, ?_, ?_, ?_, ?_, ?_, ?_, ?_⟩
      · rw [hstep]; exact hrun2
      · rw [hi2, List.length_cons]
        show st.atom_i + 1 + (aEntriesF fl' rest).length
          = st.atom_i + ((aEntriesF fl' rest).length + 1)
        omega
      · rw [hlen2]; exact hsetlen
      · intro j; exact (hmap2 j).trans (hsetmap j)
      · intro j hj
        have h1 : st2.atoms.get? j
            = (st.atoms.set st.atom_i { a with ff_type := ff }).get? j :=
          hpre2 j (Nat.lt_succ_of_lt hj)
        rw [h1, get?_set_ne st.atoms st.atom_i j _ (Nat.ne_of_gt hj)]
      · intro j hj
        rw [List.length_cons] at hj
        have h1 : st2.atoms.get? j
            = (st.atoms.set st.atom_i { a with ff_type := ff }).get? j :=
          hsuf2 j (by show st.atom_i + 1 + (aEntriesF fl' rest).length <= j; omega)
        rw [h1, get?_set_ne st.atoms st.atom_i j _ (by omega)]
      · intro m lm hm
        match m, hm with
        | 0, hm =>
          have hlm : lm = pyStrip l := by
            have := hm
            simp only [List.get?] at this
            exact (Option.some.injEq _ _ ▸ this.symm) ▸ rfl
          refine ⟨a, ?_, ?_⟩
          · show st.atoms.get? (st.atom_i + 0) = some a
            simpa using hg
          · have h1 : st2.atoms.get? st.atom_i
                = (st.atoms.set st.atom_i { a with ff_type := ff }).get? st.atom_i :=
              hpre2 st.atom_i (Nat.lt_succ_self _)
            have h2 := get?_set_self st.atoms st.atom_i { a with ff_type := ff } a hg
            rw [show st.atom_i + 0 = st.atom_i from rfl, h1, h2, hlm,
                (entryFF_of_parse hp).1]
        | m + 1, hm =>
          obtain ⟨a2, ha2, ha2'⟩ := hpt2 m lm hm
          have hidx : st.atom_i + 1 + m = st.atom_i + (m + 1) := by omega
          rw [hidx] at ha2 ha2'
          refine ⟨a2, ?_, ha2'⟩
          rw [← ha2, get?_set_ne st.atoms st.atom_i _ _ (by omega)]

theorem atomEntriesOf_eq (f : List String) : atomEntriesOf f = aEntriesF initFlags f := rfl

theorem typesEntriesOf_eq (f : List String) : typesEntriesOf f = tEntriesF initFlags f := rfl

/-- Success bookkeeping lifted to the list of files (flags reset per file,
cursor and charges carried across). -/
theorem itpFiles_success :
    ∀ (files : List (List String)) (st : ItpState),
      alignedb st.atoms st.atom_i (atomEntries files) = true →
      typesWf files = true →
      ∃ st2, itpFiles st files = (st2, none) ∧
        st2.atom_i = st.atom_i + (atomEntries files).length ∧
        st2.atoms.length = st.atoms.length ∧
        (∀ j, ((st2.atoms.get? j).map (fun a => a.resid))
            = ((st.atoms.get? j).map (fun a => a.resid))) ∧
        (∀ j, j < st.atom_i → st2.atoms.get? j = st.atoms.get? j) ∧
        (∀ j, st.atom_i + (atomEntries files).length ≤ j →
          st2.atoms.get? j = st.atoms.get? j) ∧
        (∀ (m : Nat) (lm : String), (atomEntries files).get? m = some lm →
          ∃ a, st.atoms.get? (st.atom_i + m) = some a ∧
            st2.atoms.get? (st.atom_i + m) = some { a with ff_type := entryFF lm }) := by
  intro files
  induction files with
  | nil =>
    intro st _ _
    exact ⟨st, rfl, rfl, rfl, fun j => rfl, fun j _ => rfl, fun j _ => rfl,
           fun m lm hm => Option.noConfusion hm⟩
  | cons f fs ih =>
    intro st ha ht
    have hflat : atomEntries (f :: fs) = atomEntriesOf f ++ atomEntries fs := by
      unfold atomEntries
      rw [List.map_cons, List.flatten_cons]
    rw [hflat] at ha ⊢
    rw [alignedb_append, Bool.and_eq_true] at ha
    obtain ⟨haf, has⟩ := ha
    rw [typesWf, List.all_cons, Bool.and_eq_true] at ht
    obtain ⟨htf, hts⟩ := ht
    obtain ⟨st1, fl2, hrun1, hi1, hlen1, hmap1, hpre1, hsuf1, hpt1⟩ :=
      itpLines_success f st initFlags haf htf
    rw [← atomEntriesOf_eq] at hi1 hsuf1 hpt1
    have ha2 : alignedb st1.atoms st1.atom_i (atomEntries fs) = true := by
      rw [alignedb_congr hmap1, hi1]
      exact has
    obtain ⟨st2, hrun2, hi2, hlen2, hmap2, hpre2, hsuf2, hpt2⟩ := ih st1 ha2 hts
    have hrunc : itpFiles st (f :: fs) = (st2, none) := by
      rw [show itpFiles st (f :: fs)
            = (match itpLines st initFlags f with
               | (st', _, none) => itpFiles st' fs
               | (st', _, some e) => (st', some e)) from rfl, hrun1]
      exact hrun2
    refine ⟨st2, hrunc, ?_, ?_, ?_, ?_, ?_, ?_⟩
    · rw [hi2, hi1, List.length_append]
      omega
    · rw [hlen2, hlen1]
    · intro j; exact (hmap2 j).trans (hmap1 j)
    · intro j hj
      rw [hpre2 j (by rw [hi1]; omega), hpre1 j hj]
    · intro j hj
      rw [List.length_append] at hj
      rw [hsuf2 j (by rw [hi1]; omega), hsuf1 j (by omega)]
    · intro m lm hm
      by_cases hmlt : m < (atomEntriesOf f).length
      · rw [List.get?_append hmlt] at hm
        obtain ⟨a, hga, hga'⟩ := hpt1 m lm hm
        refine ⟨a, hga, ?_⟩
        rw [hpre2 (st.atom_i + m) (by rw [hi1]; omega), hga']
      · push_neg at hmlt
        rw [List.get?_append_right hmlt] at hm
        obtain ⟨a, hga2, hga2'⟩ := hpt2 (m - (atomEntriesOf f).length) lm hm
        have hidx : st1.atom_i + (m - (atomEntriesOf f).length) = st.atom_i + m := by
          rw [hi1]; omega
        rw [hidx] at hga2 hga2'
        refine ⟨a, ?_, hga2'⟩
        rw [← hga2, hsuf1 (st.atom_i + m) (by omega)]

/-- If the first `k` atom entries align but entry `k` parses to a residue
id different from the one of the atom at the cursor, the file run stops at
entry `k` with exactly the mismatch error, the cursor having advanced `k`
positions, and no atom at or beyond the cursor is touched. -/
theorem itpLines_mismatch :
    ∀ (lines : List String) (st : ItpState) (fl : ItpFlags) (k : Nat) (lk : String)
      (aid : Int) (ff : String) (rq : Int) (ak : AtomRecord),
      (aEntriesF fl lines).get? k = some lk →
      parseAtomEntry lk = some (aid, ff, rq) →
      st.atoms.get? (st.atom_i + k) = some ak →
      ak.resid ≠ rq →
      alignedb st.atoms st.atom_i ((aEntriesF fl lines).take k) = true →
      (tEntriesF fl lines).all (fun l => (parseTypesEntry l).isSome) = true →
      ∃ st2 fl2, itpLines st fl lines = (st2, fl2, some (.mismatch ak.resid rq)) ∧
        st2.atom_i = st.atom_i + k ∧
        (∀ j, st.atom_i + k ≤ j → st2.atoms.get? j = st.atoms.get? j) := by
  intro lines
  induction lines with
  | nil =>
    intro st fl k lk aid ff rq ak hk _ _ _ _ _
    exact Option.noConfusion hk
  | cons l rest ih =>
    intro st fl k lk aid ff rq ak hk hp hg hne hal ht
    rcases hcl : itpClassify fl l with ⟨kind, fl'⟩
    match kind, hcl with
    | .skip, hcl =>
      rw [aEntriesF_skip rest hcl] at hk hal
      rw [tEntriesF_skip rest hcl] at ht
      have hstep : itpLines st fl (l :: rest) = itpLines st fl' rest := by
        rw [itpLines_cons, itpStep_skip st hcl]
      rw [hstep]
      exact ih st fl' k lk aid ff rq ak hk hp hg hne hal ht
    | .typesEntry, hcl =>
      rw [aEntriesF_types rest hcl] at hk hal
      rw [tEntriesF_types rest hcl] at ht
      rw [List.all_cons, Bool.and_eq_true] at ht
      obtain ⟨hhead, htrest⟩ := ht
      obtain ⟨⟨ff2, q⟩, hpt⟩ := Option.isSome_iff_exists.mp hhead
      have hstep : itpLines st fl (l :: rest)
          = itpLines ⟨st.atoms, st.atom_i, setAssoc st.charges ff2 q⟩ fl' rest := by
        rw [itpLines_cons, itpStep_types st hcl, typesEntryStep_ok st hpt]
        rfl
      rw [hstep]
      exact ih ⟨st.atoms, st.atom_i, setAssoc st.charges ff2 q⟩ fl' k lk aid ff rq ak
        hk hp hg hne hal htrest
    | .atomEntry, hcl =>
      rw [aEntriesF_atom rest hcl] at hk hal
      rw [tEntriesF_atom rest hcl] at ht
      match k, hk, hg, hal with
      | 0, hk, hg, _ =>
        have hlk : lk = pyStrip l := by
          have h0 : some (pyStrip l) = some lk := hk
          cases h0
          rfl
        subst hlk
        have hg0 : st.atoms.get? st.atom_i = some ak := hg
        have hstep : itpLines st fl (l :: rest)
            = (st, fl, some (.mismatch ak.resid rq)) := by
          rw [itpLines_cons, itpStep_atom st hcl, atomEntryStep_mismatch st hp hg0 hne]
          rfl
        exact ⟨st, fl, hstep, rfl, fun j _ => rfl⟩
      | k + 1, hk, hg, hal =>
        rw [List.take_succ_cons] at hal
        obtain ⟨⟨aid0, ff0, rq0, a, hp0, hg0, hres0⟩, hatail⟩ := alignedb_cons_true hal
        have hstep : itpLines st fl (l :: rest)
            = itpLines ⟨st.atoms.set st.atom_i { a with ff_type := ff0 },
                        st.atom_i + 1, st.charges⟩ fl' rest := by
          rw [itpLines_cons, itpStep_atom st hcl, atomEntryStep_ok st hp0 hg0 hres0]
          rfl
        have hsetmap : ∀ j,
            (((st.atoms.set st.atom_i { a with ff_type := ff0 }).get? j).map
                (fun x => x.resid))
              = ((st.atoms.get? j).map (fun x => x.resid)) := by
          intro j
          by_cases hj : st.atom_i = j
          · subst hj
            rw [get?_set_self st.atoms st.atom_i _ a hg0, hg0]
            rfl
          · rw [get?_set_ne st.atoms st.atom_i j _ hj]
        have hg1 : (st.atoms.set st.atom_i { a with ff_type := ff0 }).get?
            (st.atom_i + 1 + k) = some ak := by
          rw [get?_set_ne st.atoms st.atom_i _ _ (by omega)]
          have hidx : st.atom_i + 1 + k = st.atom_i + (k + 1) := by omega
          rw [hidx]
          exact hg
        have hal1 : alignedb (st.atoms.set st.atom_i { a with ff_type := ff0 })
            (st.atom_i + 1) ((aEntriesF fl' rest).take k) = true := by
          rw [alignedb_congr hsetmap]
          exact hatail
        obtain ⟨st2, fl2, hrun2, hi2, hsuf2⟩ :=
          ih ⟨st.atoms.set st.atom_i { a with ff_type := ff0 },
              st.atom_i + 1, st.charges⟩ fl' k lk aid ff rq ak hk hp hg1 hne hal1 ht
        refine ⟨st2, fl2, ?_, ?_, ?_⟩
        · rw [hstep]; exact hrun2
        · rw [hi2]
          show st.atom_i + 1 + k = st.atom_i + (k + 1)
          omega
        · intro j hj
          have h1 := hsuf2 j (by show st.atom_i + 1 + k <= j; omega)
          rw [h1, get?_set_ne st.atoms st.atom_i j _ (by omega)]

/-- The mismatch behaviour lifted to the list of files. -/
theorem itpFiles_mismatch :
    ∀ (files : List (List String)) (st : ItpState) (k : Nat) (lk : String)
      (aid : Int) (ff : String) (rq : Int) (ak : AtomRecord),
      (atomEntries files).get? k = some lk →
      parseAtomEntry lk = some (aid, ff, rq) →
      st.atoms.get? (st.atom_i + k) = some ak →
      ak.resid ≠ rq →
      alignedb st.atoms st.atom_i ((atomEntries files).take k) = true →
      typesWf files = true →
      ∃ st2, itpFiles st files = (st2, some (.mismatch ak.resid rq)) ∧
        st2.atom_i = st.atom_i + k ∧
        (∀ j, st.atom_i + k ≤ j → st2.atoms.get? j = st.atoms.get? j) := by
  intro files
  induction files with
  | nil =>
    intro st k lk aid ff rq ak hk _ _ _ _ _
    exact Option.noConfusion hk
  | cons f fs ih =>
    intro st k lk aid ff rq ak hk hp hg hne hal ht
    have hflat : atomEntries (f :: fs) = atomEntriesOf f ++ atomEntries fs := by
      unfold atomEntries
      rw [List.map_cons, List.flatten_cons]
    rw [hflat] at hk hal
    rw [typesWf, List.all_cons, Bool.and_eq_true] at ht
    obtain ⟨htf, hts⟩ := ht
    by_cases hmlt : k < (atomEntriesOf f).length
    · rw [List.get?_append hmlt] at hk
      have htake : (atomEntriesOf f ++ atomEntries fs).take k = (atomEntriesOf f).take k := by
        rw [List.take_append_eq_append_take, Nat.sub_eq_zero_of_le (Nat.le_of_lt hmlt),
            List.take_zero, List.append_nil]
      rw [htake] at hal
      obtain ⟨st2, fl2, hrun2, hi2, hsuf2⟩ :=
        itpLines_mismatch f st initFlags k lk aid ff rq ak hk hp hg hne hal htf
      refine ⟨st2, ?_, hi2, hsuf2⟩
      rw [show itpFiles st (f :: fs)
            = (match itpLines st initFlags f with
               | (st', _, none) => itpFiles st' fs
               | (st', _, some e) => (st', some e)) from rfl, hrun2]
    · push_neg at hmlt
      have htake : (atomEntriesOf f ++ atomEntries fs).take k
          = atomEntriesOf f ++ (atomEntries fs).take (k - (atomEntriesOf f).length) := by
        rw [List.take_append_eq_append_take, List.take_of_length_le hmlt]
      rw [htake, alignedb_append, Bool.and_eq_true] at hal
      obtain ⟨haf, has⟩ := hal
      obtain ⟨st1, fl2, hrun1, hi1, hlen1, hmap1, hpre1, hsuf1, hpt1⟩ :=
        itpLines_success f st initFlags haf htf
      rw [← atomEntriesOf_eq] at hi1 hsuf1
      rw [List.get?_append_right hmlt] at hk
      have hg1 : st1.atoms.get? (st1.atom_i + (k - (atomEntriesOf f).length)) = some ak := by
        have hidx : st1.atom_i + (k - (atomEntriesOf f).length) = st.atom_i + k := by
          rw [hi1]; omega
        rw [hidx, hsuf1 (st.atom_i + k) (by omega)]
        exact hg
      have has1 : alignedb st1.atoms st1.atom_i
          ((atomEntries fs).take (k - (atomEntriesOf f).length)) = true := by
        rw [alignedb_congr hmap1, hi1]
        exact has
      obtain ⟨st2, hrun2, hi2, hsuf2⟩ :=
        ih st1 (k - (atomEntriesOf f).length) lk aid ff rq ak hk hp hg1 hne has1 hts
      refine ⟨st2, ?_, ?_, ?_⟩
      · rw [show itpFiles st (f :: fs)
              = (match itpLines st initFlags f with
                 | (st', _, none) => itpFiles st' fs
                 | (st', _, some e) => (st', some e)) from rfl, hrun1]
        exact hrun2
      · rw [hi2, hi1]; omega
      · intro j hj
        rw [hsuf2 j (by rw [hi1]; omega), hsuf1 j (by omega)]

theorem list_eq_of_get? {α : Type} :
    ∀ (l1 l2 : List α), (∀ n, l1.get? n = l2.get? n) → l1 = l2 := by
  intro l1
  induction l1 with
  | nil =>
    intro l2 h
    cases l2 with
    | nil => rfl
    | cons b bs => exact Option.noConfusion (h 0)
  | cons a as ih =>
    intro l2 h
    cases l2 with
    | nil => exact Option.noConfusion (h 0)
    | cons b bs =>
      have h0 : some a = some b := h 0
      cases h0
      rw [ih bs (fun n => h (n + 1))]

theorem get?_some_lt {α : Type} :
    ∀ (l : List α) (n : Nat) (a : α), l.get? n = some a → n < l.length := by
  intro l
  induction l with
  | nil => intro n a h; exact Option.noConfusion h
  | cons x xs ih =>
    intro n a h
    match n with
    | 0 => exact Nat.succ_pos _
    | n + 1 => exact Nat.succ_lt_succ (ih n a h)

theorem get?_none_of_le {α : Type} :
    ∀ (l : List α) (n : Nat), l.length ≤ n → l.get? n = none := by
  intro l
  induction l with
  | nil => intro n _; rfl
  | cons x xs ih =>
    intro n h
    match n, h with
    | n + 1, h => exact ih n (Nat.le_of_succ_le_succ h)

theorem lt_get?_some {α : Type} :
    ∀ (l : List α) (n : Nat), n < l.length → ∃ a, l.get? n = some a := by
  intro l
  induction l with
  | nil => intro n h; exact absurd h (Nat.not_lt_zero n)
  | cons x xs ih =>
    intro n h
    match n with
    | 0 => exact ⟨x, rfl⟩
    | n + 1 => exact ih n (Nat.lt_of_succ_lt_succ h)

theorem get?_map {α β : Type} (f : α → β) :
    ∀ (l : List α) (n : Nat), (l.map f).get? n = (l.get? n).map f := by
  intro l
  induction l with
  | nil => intro n; rfl
  | cons x xs ih =>
    intro n
    match n with
    | 0 => rfl
    | n + 1 => exact ih n

/-- If a file run succeeds, the cursor has advanced by exactly the number
of its atom entry lines, and stays within the atom list. -/
theorem itpLines_count :
    ∀ (lines : List String) (st : ItpState) (fl : ItpFlags) (st2 : ItpState) (fl2 : ItpFlags),
      itpLines st fl lines = (st2, fl2, none) →
      st2.atom_i = st.atom_i + (aEntriesF fl lines).length ∧
      st2.atoms.length = st.atoms.length ∧
      (st.atom_i ≤ st.atoms.length → st2.atom_i ≤ st2.atoms.length) := by
  intro lines
  induction lines with
  | nil =>
    intro st fl st2 fl2 h
    have h1 : st = st2 := congrArg (fun t => t.1) h
    exact ⟨by rw [← h1]; rfl, by rw [← h1], fun hb => by rw [← h1]; exact hb⟩
  | cons l rest ih =>
    intro st fl st2 fl2 h
    rcases hcl : itpClassify fl l with ⟨kind, fl'⟩
    match kind, hcl with
    | .skip, hcl =>
      rw [show itpLines st fl (l :: rest) = itpLines st fl' rest from by
            rw [itpLines_cons, itpStep_skip st hcl]] at h
      rw [aEntriesF_skip rest hcl]
      exact ih st fl' st2 fl2 h
    | .typesEntry, hcl =>
      rw [aEntriesF_types rest hcl]
      rcases hpt : parseTypesEntry (pyStrip l) with _ | ⟨ff, q⟩
      · rw [show itpLines st fl (l :: rest) = (st, fl, some .typesValueError) from by
              rw [itpLines_cons, itpStep_types st hcl,
                  show typesEntryStep st (pyStrip l) = .error .typesValueError from by
                    unfold typesEntryStep; rw [hpt]]
              rfl] at h
        exact Option.noConfusion (congrArg (fun t => t.2.2) h)
      · rw [show itpLines st fl (l :: rest)
              = itpLines ⟨st.atoms, st.atom_i, setAssoc st.charges ff q⟩ fl' rest from by
              rw [itpLines_cons, itpStep_types st hcl, typesEntryStep_ok st hpt]
              rfl] at h
        exact ih ⟨st.atoms, st.atom_i, setAssoc st.charges ff q⟩ fl' st2 fl2 h
    | .atomEntry, hcl =>
      rw [aEntriesF_atom rest hcl]
      rcases hp : parseAtomEntry (pyStrip l) with _ | ⟨aid, ff, rq⟩
      · rw [show itpLines st fl (l :: rest) = (st, fl, some .atomsValueError) from by
              rw [itpLines_cons, itpStep_atom st hcl,
                  show atomEntryStep st (pyStrip l) = .error .atomsValueError from by
                    unfold atomEntryStep; rw [hp]]
              rfl] at h
        exact Option.noConfusion (congrArg (fun t => t.2.2) h)
      · rcases hg : st.atoms.get? st.atom_i with _ | a
        · rw [show itpLines st fl (l :: rest) = (st, fl, some .indexError) from by
                rw [itpLines_cons, itpStep_atom st hcl,
                    show atomEntryStep st (pyStrip l) = .error .indexError from by
                      unfold atomEntryStep; simp only [hp, hg]]
                rfl] at h
          exact Option.noConfusion (congrArg (fun t => t.2.2) h)
        · by_cases hres : a.resid = rq
          · rw [show itpLines st fl (l :: rest)
                  = itpLines ⟨st.atoms.set st.atom_i { a with ff_type := ff },
                              st.atom_i + 1, st.charges⟩ fl' rest from by
                  rw [itpLines_cons, itpStep_atom st hcl, atomEntryStep_ok st hp hg hres]
                  rfl] at h
            have hlt : st.atom_i < st.atoms.length := get?_some_lt _ _ _ hg
            obtain ⟨hia, hlen, hbound⟩ :=
              ih ⟨st.atoms.set st.atom_i { a with ff_type := ff },
                  st.atom_i + 1, st.charges⟩ fl' st2 fl2 h
            refine ⟨?_, ?_, ?_⟩
            · rw [hia, List.length_cons]
              show st.atom_i + 1 + (aEntriesF fl' rest).length
                = st.atom_i + ((aEntriesF fl' rest).length + 1)
              omega
            · rw [hlen]
              show (st.atoms.set st.atom_i { a with ff_type := ff }).length
                = st.atoms.length
              exact List.length_set _ _ _
            · intro _
              apply hbound
              show st.atom_i + 1 ≤ (st.atoms.set st.atom_i { a with ff_type := ff }).length
              rw [List.length_set]
              omega
          · rw [show itpLines st fl (l :: rest) = (st, fl, some (.mismatch a.resid rq)) from by
                  rw [itpLines_cons, itpStep_atom st hcl,
                      atomEntryStep_mismatch st hp hg hres]
                  rfl] at h
            exact Option.noConfusion (congrArg (fun t => t.2.2) h)

/-- The cursor count over all files. -/
theorem itpFiles_count :
    ∀ (files : List (List String)) (st : ItpState) (st2 : ItpState),
      itpFiles st files = (st2, none) →
      st2.atom_i = st.atom_i + (atomEntries files).length ∧
      st2.atoms.length = st.atoms.length ∧
      (st.atom_i ≤ st.atoms.length → st2.atom_i ≤ st2.atoms.length) := by
  intro files
  induction files with
  | nil =>
    intro st st2 h
    have h1 : st = st2 := congrArg (fun t => t.1) h
    exact ⟨by rw [← h1]; rfl, by rw [← h1], fun hb => by rw [← h1]; exact hb⟩
  | cons f fs ih =>
    intro st st2 h
    rw [show itpFiles st (f :: fs)
          = (match itpLines st initFlags f with
             | (st', _, none) => itpFiles st' fs
             | (st', _, some e) => (st', some e)) from rfl] at h
    rcases hrunf : itpLines st initFlags f with ⟨st1, fl1, err1⟩
    rw [hrunf] at h
    match err1, h with
    | none, h =>
      obtain ⟨hia1, hlen1, hb1⟩ := itpLines_count f st initFlags st1 fl1 hrunf
      rw [← atomEntriesOf_eq] at hia1
      obtain ⟨hia2, hlen2, hb2⟩ := ih st1 st2 h
      have hflat : atomEntries (f :: fs) = atomEntriesOf f ++ atomEntries fs := by
        unfold atomEntries
        rw [List.map_cons, List.flatten_cons]
      refine ⟨?_, ?_, ?_⟩
      · rw [hia2, hia1, hflat, List.length_append]
        omega
      · rw [hlen2, hlen1]
      · intro hb
        exact hb2 (hb1 hb)
    | some e, h =>
      exact Option.noConfusion (congrArg (fun t => t.2) h)

/-! ## C1: ITP positional matching -/

/-- C1 (confirmed).  For a nonempty loaded collection of N atoms and
well-formed ITP files whose atoms-block entry lines match the residue ids
of the collection in order (same count N, each entry parsing with the resid
of the atom at the same position, and every atomtypes entry tokenising),
the resolver succeeds, the running cursor ends exactly at N, and every atom
is assigned the (nonempty) force-field token of its entry.  Conversely, if
the entries align up to position k but the entry at k parses to a residue
id different from that of atom k, the run aborts with exit code 1 after the
diagnostic naming both residue ids, the cursor stops at k, and no atom at
position k or beyond is modified. -/
theorem itp_positional_matching :
    (∀ (atoms : List AtomRecord) (files : List (List String)),
      atoms ≠ [] →
      (atomEntries files).length = atoms.length →
      alignedb atoms 0 (atomEntries files) = true →
      typesWf files = true →
      ∃ st2, add_atom_types_from_itp atoms files = (st2, none) ∧
        st2.atom_i = atoms.length ∧
        st2.atoms.map (fun a => a.ff_type) = (atomEntries files).map entryFF ∧
        (∀ a ∈ st2.atoms, a.ff_type ≠ "")) ∧
    (∀ (atoms : List AtomRecord) (files : List (List String)) (k : Nat) (lk : String)
        (aid : Int) (ff : String) (rq : Int) (ak : AtomRecord),
      (atomEntries files).get? k = some lk →
      parseAtomEntry lk = some (aid, ff, rq) →
      atoms.get? k = some ak →
      ak.resid ≠ rq →
      alignedb atoms 0 ((atomEntries files).take k) = true →
      typesWf files = true →
      ∃ st2, add_atom_types_from_itp atoms files = (st2, some (.mismatch ak.resid rq)) ∧
        st2.atom_i = k ∧
        (∀ j, k ≤ j → st2.atoms.get? j = atoms.get? j) ∧
        (ItpErr.mismatch ak.resid rq).explicitExit = some 1 ∧
        (ItpErr.mismatch ak.resid rq).diagnostic
          = "WHOA! ITP mismatch: resid " ++ toString ak.resid ++ " in PDB vs "
            ++ toString rq ++ " in ITP") := by
  constructor
  · intro atoms files hne hlen ha ht
    have h0 : ¬ atoms.length = 0 := fun h => hne (List.length_eq_zero.mp h)
    obtain ⟨st2, hrun, hi, hlen2, _, _, _, hpt⟩ :=
      itpFiles_success files ⟨atoms, 0, []⟩ ha ht
    have hlen2' : st2.atoms.length = atoms.length := hlen2
    have hmapff : st2.atoms.map (fun a => a.ff_type) = (atomEntries files).map entryFF := by
      apply list_eq_of_get?
      intro n
      rw [get?_map, get?_map]
      by_cases hn : n < atoms.length
      · obtain ⟨ln, hln⟩ := lt_get?_some (atomEntries files) n (by omega)
        obtain ⟨a, hga, hga'⟩ := hpt n ln hln
        have hga2 : atoms.get? (0 + n) = some a := hga
        have hga2' : st2.atoms.get? (0 + n) = some { a with ff_type := entryFF ln } := hga'
        rw [Nat.zero_add] at hga2 hga2'
        rw [hga2', hln]
        rfl
      · have h1 : st2.atoms.get? n = none := get?_none_of_le _ _ (by omega)
        have h2 : (atomEntries files).get? n = none := get?_none_of_le _ _ (by omega)
        rw [h1, h2]
        rfl
    refine ⟨st2, ?_, ?_, hmapff, ?_⟩
    · unfold add_atom_types_from_itp
      rw [if_neg h0]
      exact hrun
    · have hi2 : st2.atom_i = 0 + (atomEntries files).length := hi
      omega
    · intro a hamem
      have hmem : a.ff_type ∈ (atomEntries files).map entryFF := by
        rw [← hmapff]
        exact List.mem_map_of_mem _ hamem
      obtain ⟨lx, hlx, hfx⟩ := List.mem_map.mp hmem
      obtain ⟨⟨aidx, ffx, rqx⟩, hpx⟩ := alignedb_all_parse (atomEntries files) 0 ha lx hlx
      obtain ⟨he1, he2⟩ := entryFF_of_parse hpx
      rw [← hfx, he1]
      exact he2
  · intro atoms files k lk aid ff rq ak hk hp hg hne hal ht
    have hklt : k < atoms.length := get?_some_lt atoms k ak hg
    have h0 : ¬ atoms.length = 0 := by omega
    have hg0 : (⟨atoms, 0, []⟩ : ItpState).atoms.get?
        ((⟨atoms, 0, []⟩ : ItpState).atom_i + k) = some ak := by
      show atoms.get? (0 + k) = some ak
      rw [Nat.zero_add]
      exact hg
    obtain ⟨st2, hrun, hi, hsuf⟩ :=
      itpFiles_mismatch files ⟨atoms, 0, []⟩ k lk aid ff rq ak hk hp hg0 hne hal ht
    refine ⟨st2, ?_, ?_, ?_, rfl, rfl⟩
    · unfold add_atom_types_from_itp
      rw [if_neg h0]
      exact hrun
    · have hi2 : st2.atom_i = 0 + k := hi
      omega
    · intro j hj
      have h1 : st2.atoms.get? j = (⟨atoms, 0, []⟩ : ItpState).atoms.get? j :=
        hsuf j (by show (0:Nat) + k ≤ j; omega)
      exact h1

/-- Witness for `itp_positional_matching`: the aligned one-atom collection
succeeds with the cursor at 1 and force-field type CT1 assigned; swapping
in an atom with residue id 2 aborts with the mismatch. -/
theorem itp_positional_matching_witness :
    (∃ st2, add_atom_types_from_itp [sampleAtom 1] [exampleItpFile] = (st2, none) ∧
      st2.atom_i = 1 ∧
      st2.atoms.map (fun a => a.ff_type) = (atomEntries [exampleItpFile]).map entryFF) ∧
    (∃ st2, add_atom_types_from_itp [sampleAtom 2] [exampleItpFile]
        = (st2, some (.mismatch 2 1))) := by
  constructor
  · obtain ⟨st2, h1, h2, h3, _⟩ := itp_positional_matching.1 [sampleAtom 1] [exampleItpFile]
      (by decide) (by decide) (by decide) (by decide)
    exact ⟨st2, h1, h2, h3⟩
  · obtain ⟨st2, h1, _⟩ := itp_positional_matching.2 [sampleAtom 2] [exampleItpFile]
      0 "1 CT1 1 ALA CA" 1 "CT1" 1 (sampleAtom 2) (by decide) (by decide) rfl (by decide)
      (by decide) (by decide)
    exact ⟨st2, h1⟩

/-! ## C9: surplus ITP entries -/

/-- C9 (confirmed).  If the ITP files carry more atoms-block entry lines
than there are atoms in the loaded collection, the resolver cannot finish
silently: it aborts with some fatal error (on a fully aligned prefix this
is the cursor indexing past the end of the atom list). -/
theorem itp_surplus_entries_fatal :
    ∀ (atoms : List AtomRecord) (files : List (List String)),
      atoms.length < (atomEntries files).length →
      ∃ e, (add_atom_types_from_itp atoms files).2 = some e := by
  intro atoms files hlen
  unfold add_atom_types_from_itp
  by_cases h0 : atoms.length = 0
  · rw [if_pos h0]
    exact ⟨.notLoaded, rfl⟩
  · rw [if_neg h0]
    rcases hrun : itpFiles ⟨atoms, 0, []⟩ files with ⟨st2, err⟩
    match err with
    | some e => exact ⟨e, rfl⟩
    | none =>
      exfalso
      obtain ⟨hia, hlen2, hb⟩ := itpFiles_count files ⟨atoms, 0, []⟩ st2 hrun
      have hb2 : st2.atom_i ≤ st2.atoms.length :=
        hb (by show (0:Nat) ≤ atoms.length; omega)
      have h1 : st2.atom_i = 0 + (atomEntries files).length := hia
      have h2 : st2.atoms.length = atoms.length := hlen2
      omega

/-- Witness for `itp_surplus_entries_fatal`: one atom, two entry lines. -/
theorem itp_surplus_entries_fatal_witness :
    ∃ e, (add_atom_types_from_itp [sampleAtom 1]
      [["[ atoms ]", "1 CT1 1 ALA CA", "1 HB2 1 ALA HB"]]).2 = some e := by
  exact itp_surplus_entries_fatal [sampleAtom 1]
    [["[ atoms ]", "1 CT1 1 ALA CA", "1 HB2 1 ALA HB"]] (by decide)
